import Mathlib

/-!
# Verification of the ABS SCPI driver protocol engine

A shallow embedding, in Lean 4, of the protocol engine of the
`abs-scpi-driver` C++ library: the text codec (trimming, numeric and
mnemonic token parsing, strict-arity array parsing, channel-list
encoding), the SCPI client command/query layer, the RS-485 serial
driver addressing state, and the two discovery algorithms.

Conventions used by the embedding:
* C++ `std::string_view`/`std::string` values are `String` or `List Char`;
* machine integers are `Nat` (all relevant quantities are unsigned and
  the code never relies on wrap-around; `unsigned int` clamps appear
  explicitly);
* C++ `float` values are modelled as exact rationals `ℚ` (binary
  floating-point rounding is abstracted away: none of the verified
  properties depends on it); parsed float results are `FF`, which also
  carries the infinity/NaN outcomes of the parser;
* `Result<T>` (`tl::expected<T, ErrorCode>`) is `Except ErrorCode`;
* I/O is modelled by explicit driver-outcome parameters plus an event
  trace (`Ev`, `MEv`, `DEv`) recording the writes and reads an
  operation performs.
-/

deriving instance DecidableEq for Except

namespace AbsScpi

/-- `bci::abs::ErrorCode` from `include/bci/abs/CommonTypes.h`. -/
inductive ErrorCode
  | kSuccess
  | kChannelIndexOutOfRange
  | kInvalidIPAddress
  | kConnectionTimedOut
  | kConnectionFailed
  | kSendFailed
  | kSendTimedOut
  | kReadFailed
  | kReadTimedOut
  | kNotConnected
  | kInvalidResponse
  | kInvalidFaultType
  | kInvalidSenseRange
  | kInvalidArgument
  | kInvalidDriverHandle
  | kReceiveNotAllowed
  | kAlreadyConnected
  | kSocketError
  | kFailedToBindSocket
  | kOpeningSerialPortFailed
  | kFailedToConfigurePort
  | kFailedToJoinGroup
  | kBufferTooSmall
  | kAllocationFailed
  | kUnexpectedException
  deriving DecidableEq, Repr

/-- Fixed channel counts from `include/bci/abs/CommonTypes.h`. -/
def kCellCount : Nat := 8

/-- Total analog output count (`CommonTypes.h`). -/
def kAnalogOutputCount : Nat := 8

/-- Total analog input count (`CommonTypes.h`). -/
def kAnalogInputCount : Nat := 8

/-- Total digital output count (`CommonTypes.h`). -/
def kDigitalOutputCount : Nat := 4

/-- Total digital input count (`CommonTypes.h`). -/
def kDigitalInputCount : Nat := 4

/-!
## Text codec: trimming (`src/StringUtil.h`)

`util::kTrimChars` is built as a `std::string_view` from the literal
`" \t\v\r\n\0"`; the `const char*` constructor stops at the embedded
NUL, so the trim set is exactly the five characters space, tab,
vertical tab, CR and LF (the NUL is *not* part of the set).
-/

/-- Membership in `util::kTrimChars`. -/
def isTrimChar (c : Char) : Bool :=
  c = ' ' || c = '\t' || c = '\x0B' || c = '\r' || c = '\n'

/-- Drop trailing trim characters (the `find_last_not_of` half of
`util::Trim`). -/
def trimRight (l : List Char) : List Char :=
  (l.reverse.dropWhile isTrimChar).reverse

/-- `util::Trim` from `src/StringUtil.h`: strip the trim set from both
ends.  (The early-return for views of length `≤ 1` in the C++ is
behaviourally equivalent: after the prefix strip the first remaining
character is not a trim character.) -/
def trimList (l : List Char) : List Char :=
  trimRight (l.dropWhile isTrimChar)

/-- `util::Trim` lifted to `String`. -/
def trimString (s : String) : String :=
  String.mk (trimList s.data)

/-!
## Text codec: float parsing (`src/StringUtil.h`, `fast_float`)

`util::StrViewToFloat` trims its argument and hands it to
`fast_float::from_chars` with the default (`general`) format, reporting
success whenever `from_chars` does — i.e. whenever some *prefix* of the
token is a valid number; it does not check that the whole token was
consumed.  The model below follows the `fast_float` grammar: an
optional minus sign; either a significand (integer digits, optional
point and fraction digits, at least one digit in total) with an
optional exponent (`e`/`E`, optional sign, at least one digit —
otherwise the exponent is rolled back), or the keywords
`inf`/`infinity`/`nan`, case-insensitively.  A leading plus sign is
not accepted.  The decimal value is kept exactly as a rational.
-/

/-- Parsed float values: a finite value (exact rational), signed
infinity, or NaN. -/
inductive FF
  | finite (q : ℚ)
  | posInf
  | negInf
  | nan
  deriving DecidableEq, Repr

/-- Negation of a parsed float value (applied for a leading minus
sign). -/
def FF.neg : FF → FF
  | .finite q => .finite (-q)
  | .posInf => .negInf
  | .negInf => .posInf
  | .nan => .nan

/-- Split a leading run of decimal digits from the rest. -/
def spanDigits : List Char → List Char × List Char
  | [] => ([], [])
  | c :: cs =>
    if c.isDigit then
      let p := spanDigits cs
      (c :: p.1, p.2)
    else ([], c :: cs)

/-- Value of a digit run read in base 10. -/
def digitsToNat (l : List Char) : Nat :=
  l.foldl (fun n c => 10 * n + (c.toNat - 48)) 0

/-- Exact value of a significand with integer digits `ip` and fraction
digits `fp`. -/
def sigVal (ip fp : List Char) : ℚ :=
  (digitsToNat ip : ℚ) + (digitsToNat fp : ℚ) / (10 : ℚ) ^ fp.length

/-- The significand part of the `fast_float` grammar: integer digits,
then optionally a decimal point and fraction digits; at least one
digit in total.  Returns the exact value and the unconsumed rest. -/
def parseSignificand (cs : List Char) : Option (ℚ × List Char) :=
  let s := spanDigits cs
  match s.2 with
  | c :: r2 =>
    if c = '.' then
      let t := spanDigits r2
      if s.1 = [] ∧ t.1 = [] then none
      else some (sigVal s.1 t.1, t.2)
    else if s.1 = [] then none
    else some ((digitsToNat s.1 : ℚ), c :: r2)
  | [] => if s.1 = [] then none else some ((digitsToNat s.1 : ℚ), [])

/-- Exponent digits with an already-consumed sign; at least one digit
is required. -/
def expDigits (neg : Bool) (r : List Char) : Option (Int × List Char) :=
  let s := spanDigits r
  if s.1 = [] then none
  else some (if neg then -(digitsToNat s.1 : Int) else (digitsToNat s.1 : Int), s.2)

/-- The tail of an exponent (after `e`/`E`): optional sign, then at
least one digit. -/
def parseExpTail (cs : List Char) : Option (Int × List Char) :=
  match cs with
  | c :: r =>
    if c = '+' then expDigits false r
    else if c = '-' then expDigits true r
    else expDigits false (c :: r)
  | [] => none

/-- Case-insensitive character comparison against a lowercase
letter. -/
def lowEq (c d : Char) : Bool := c.toLower = d

/-- Whether the list starts with `inity` (case-insensitively); used
for the long spelling `infinity`. -/
def startsInity (l : List Char) : Bool :=
  match l with
  | a :: b :: c :: d :: e :: _ =>
    lowEq a 'i' && lowEq b 'n' && lowEq c 'i' && lowEq d 't' && lowEq e 'y'
  | _ => false

/-- The `inf`/`infinity`/`nan` keywords of `fast_float` (unsigned
position; the sign is handled by the caller). -/
def parseInfNan (cs : List Char) : Option (FF × List Char) :=
  match cs with
  | c1 :: c2 :: c3 :: r =>
    if lowEq c1 'i' && lowEq c2 'n' && lowEq c3 'f' then
      some (.posInf, if startsInity r then r.drop 5 else r)
    else if lowEq c1 'n' && lowEq c2 'a' && lowEq c3 'n' then
      some (.nan, r)
    else none
  | _ => none

/-- The optional exponent step after a parsed significand of value
`m` with unconsumed rest `r`: if `e`/`E` follows with a well-formed
tail, scale the value; a malformed exponent tail is rolled back. -/
def ffExponent (m : ℚ) (r : List Char) : Option (FF × List Char) :=
  match r with
  | c :: r2 =>
    if c = 'e' ∨ c = 'E' then
      match parseExpTail r2 with
      | some (ex, r3) => some (.finite (m * (10 : ℚ) ^ ex), r3)
      | none => some (.finite m, c :: r2)
    else some (.finite m, c :: r2)
  | [] => some (.finite m, [])

/-- The unsigned part of the `fast_float` parse: a significand with an
optional (rolled back if malformed) exponent, or `inf`/`nan`. -/
def ffUnsigned (cs : List Char) : Option (FF × List Char) :=
  match parseSignificand cs with
  | some (m, r) => ffExponent m r
  | none => parseInfNan cs

/-- `fast_float::from_chars` (default format): optional minus sign,
then the unsigned number.  Returns the value and the unconsumed rest;
`none` means `from_chars` reported failure. -/
def ffParse (cs : List Char) : Option (FF × List Char) :=
  match cs with
  | c :: r => if c = '-' then (ffUnsigned r).map (fun p => (p.1.neg, p.2)) else ffUnsigned (c :: r)
  | [] => ffUnsigned []

/-- The characters that can begin a successful `fast_float` parse: a
digit, a minus sign, a decimal point, or the first letter of
`inf`/`nan` (case-insensitively). -/
def floatStart (c : Char) : Bool :=
  c.isDigit || c = '-' || c = '.' || lowEq c 'i' || lowEq c 'n'

/-- `util::StrViewToFloat`: trim, reject the empty token, then accept
whatever `fast_float::from_chars` accepts (a valid prefix suffices). -/
def strViewToFloat (s : String) : Option FF :=
  let t := trimList s.data
  if t = [] then none
  else (ffParse t).map Prod.fst

/-- `util::StrViewToBool`: after trimming, exactly `"0"` or `"1"`. -/
def strViewToBool (s : String) : Option Bool :=
  match trimList s.data with
  | ['0'] => some false
  | ['1'] => some true
  | _ => none

/-- `scpi::ParseFloatResponse` from `src/ScpiUtil.h`. -/
def parseFloatResponse (s : String) : Except ErrorCode FF :=
  match strViewToFloat s with
  | some v => .ok v
  | none => .error .kInvalidResponse

/-- `scpi::ParseBoolResponse` from `src/ScpiUtil.h`. -/
def parseBoolResponse (s : String) : Except ErrorCode Bool :=
  match strViewToBool s with
  | some v => .ok v
  | none => .error .kInvalidResponse

/-!
## Text codec: mnemonic enums (`src/ScpiUtil.h`)
-/

/-- `bci::abs::CellFault`. -/
inductive CellFault
  | kNone
  | kOpenCircuit
  | kShortCircuit
  | kPolarity
  deriving DecidableEq, Repr

/-- `bci::abs::CellSenseRange`. -/
inductive CellSenseRange
  | kAuto
  | kLow
  | kHigh
  deriving DecidableEq, Repr

/-- `bci::abs::CellMode`. -/
inductive CellMode
  | kConstantVoltage
  | kCurrentLimited
  deriving DecidableEq, Repr

/-- `bci::abs::CellPrecisionMode` (the enum declaration itself sits in
a revision of `CommonTypes.h` not present under `src/`; its three
values are fixed by their uses in `src/ScpiUtil.h`). -/
inductive CellPrecisionMode
  | kNormal
  | kHighPrecision
  | kNoiseRejection
  deriving DecidableEq, Repr

/-- `scpi::CellFaultMnemonic` — the *send* table for faults. -/
def cellFaultMnemonic : CellFault → String
  | .kNone => "NONE"
  | .kOpenCircuit => "OPEN"
  | .kShortCircuit => "SHORT"
  | .kPolarity => "POL"

/-- The `kOpts` table of `scpi::ParseCellFault` — the *parse* table
for faults. -/
def faultOpts : List (String × CellFault) :=
  [("NONE", .kNone), ("OPENCIRCUIT", .kOpenCircuit),
   ("SHORTCIRCUIT", .kShortCircuit), ("POLARITY", .kPolarity)]

/-- `scpi::ParseCellFault`: trim, then look the token up in the parse
table. -/
def parseCellFault (s : String) : Except ErrorCode CellFault :=
  match faultOpts.find? (fun p => trimString s = p.1) with
  | some p => .ok p.2
  | none => .error .kInvalidResponse

/-- `scpi::CellSenseRangeMnemonic` — the *send* table for sense
ranges. -/
def cellSenseRangeMnemonic : CellSenseRange → String
  | .kAuto => "AUTO"
  | .kLow => "LO"
  | .kHigh => "HI"

/-- The `kOpts` table of `scpi::ParseCellSenseRange`. -/
def senseRangeOpts : List (String × CellSenseRange) :=
  [("AUTO", .kAuto), ("LOW", .kLow), ("HIGH", .kHigh)]

/-- `scpi::ParseCellSenseRange`. -/
def parseCellSenseRange (s : String) : Except ErrorCode CellSenseRange :=
  match senseRangeOpts.find? (fun p => trimString s = p.1) with
  | some p => .ok p.2
  | none => .error .kInvalidResponse

/-- The `kOpts` table of `scpi::ParseCellOperatingMode` (the operating
mode is query-only: the client never builds a command from a
`CellMode`, so the mode has a parse table only). -/
def cellModeOpts : List (String × CellMode) :=
  [("CV", .kConstantVoltage), ("ILIM", .kCurrentLimited)]

/-- `scpi::ParseCellOperatingMode`. -/
def parseCellOperatingMode (s : String) : Except ErrorCode CellMode :=
  match cellModeOpts.find? (fun p => trimString s = p.1) with
  | some p => .ok p.2
  | none => .error .kInvalidResponse

/-- `scpi::CellPrecisionModeMnemonic` — the *send* table for precision
modes. -/
def cellPrecisionModeMnemonic : CellPrecisionMode → String
  | .kNormal => "NORM"
  | .kHighPrecision => "PREC"
  | .kNoiseRejection => "FILT"

/-- The `kOpts` table of `scpi::ParseCellPrecisionMode`. -/
def precisionOpts : List (String × CellPrecisionMode) :=
  [("NORMAL", .kNormal), ("PRECISION", .kHighPrecision),
   ("FILTER", .kNoiseRejection)]

/-- `scpi::ParseCellPrecisionMode`. -/
def parseCellPrecisionMode (s : String) : Except ErrorCode CellPrecisionMode :=
  match precisionOpts.find? (fun p => trimString s = p.1) with
  | some p => .ok p.2
  | none => .error .kInvalidResponse

/-!
## Text codec: comma-separated array responses (`src/ScpiUtil.h`)

`SplitRespFloats`, `SplitRespBools`, `SplitRespMnemonics` and
`ParseRespMnemonics` all share one loop shape: trim the whole
response, iterate over the `,`-separated pieces (`std::views::split`,
which yields one empty piece for an empty input and a trailing empty
piece after a trailing comma — exactly `String.splitOn`), fail with
`kInvalidResponse` when a piece arrives after the output span is full,
fail when a piece does not parse (propagating the element parser's
error), and fail with `kInvalidResponse` when fewer pieces arrived
than the span expects.
-/

/-- The shared element loop of the array parsers, over an explicit
token list; `k` is the space left in the output span. -/
def parseTokens {α : Type} (f : String → Except ErrorCode α) :
    List String → Nat → Except ErrorCode (List α)
  | [], k => if k = 0 then .ok [] else .error .kInvalidResponse
  | t :: ts, k =>
    match k with
    | 0 => .error .kInvalidResponse
    | k' + 1 =>
      match f t with
      | .ok v => (parseTokens f ts k').map (fun l => v :: l)
      | .error e => .error e

/-- `std::views::split` on `','`: an empty input yields one empty
piece, and a trailing separator yields a trailing empty piece. -/
def splitOnComma : List Char → List (List Char)
  | [] => [[]]
  | c :: cs =>
    match splitOnComma cs with
    | t :: ts => if c = ',' then [] :: t :: ts else (c :: t) :: ts
    | [] => [[c]]

/-- The `,`-separated pieces of the trimmed response. -/
def tokensOf (resp : String) : List String :=
  (splitOnComma (trimList resp.data)).map String.mk

/-- The common shape of the array-response parsers, for an element
parser `f` and expected length `k`. -/
def splitResp {α : Type} (f : String → Except ErrorCode α) (resp : String)
    (k : Nat) : Except ErrorCode (List α) :=
  parseTokens f (tokensOf resp) k

/-- Float element parser as used by `scpi::SplitRespFloats`. -/
def floatTok (t : String) : Except ErrorCode FF :=
  match strViewToFloat t with
  | some v => .ok v
  | none => .error .kInvalidResponse

/-- Bool element parser as used by `scpi::SplitRespBools`. -/
def boolTok (t : String) : Except ErrorCode Bool :=
  match strViewToBool t with
  | some v => .ok v
  | none => .error .kInvalidResponse

/-- `scpi::SplitRespFloats` for a span of length `k`. -/
def splitRespFloats (resp : String) (k : Nat) : Except ErrorCode (List FF) :=
  splitResp floatTok resp k

/-- `scpi::SplitRespBools` for a span of length `k`. -/
def splitRespBools (resp : String) (k : Nat) : Except ErrorCode (List Bool) :=
  splitResp boolTok resp k

/-- `scpi::SplitRespMnemonics` for a span of length `k`: the pieces
are returned verbatim (the C++ null-function check of
`ParseRespMnemonics` cannot arise here, Lean functions are total). -/
def splitRespMnemonics (resp : String) (k : Nat) :
    Except ErrorCode (List String) :=
  splitResp (fun t => .ok t) resp k

/-- `scpi::ParseRespMnemonics` instantiated with `ParseCellFault`, as
in `GetAllCellFaults`. -/
def parseRespCellFaults (resp : String) (k : Nat) :
    Except ErrorCode (List CellFault) :=
  splitResp parseCellFault resp k

/-!
## Numeric formatting for outbound commands

`fmt` renders clamped values with a fixed decimal precision (`{:.4f}`
for cell values, `{:.3f}` for auxiliary analog values).  The value is
modelled as an exact rational, and the fixed-point rendering is
modelled exactly over `ℚ` (the binary float detour of the C++ cannot
change any property proved here: no theorem below inspects the
digits). -/

/-- `std::clamp(v, lo, hi)`: `v < lo → lo`, `hi < v → hi`, else
`v`. -/
def clampQ (v lo hi : ℚ) : ℚ :=
  if v < lo then lo else if hi < v then hi else v

/-- Left-pad a numeral string with zeros to width `w`. -/
def padZeros (w : Nat) (s : String) : String :=
  String.mk (List.replicate (w - s.length) '0') ++ s

/-- Fixed-point decimal rendering with `prec` fraction digits
(`fmt`-style `{:.Nf}`). -/
def fmtFixed (prec : Nat) (q : ℚ) : String :=
  let n : Int := round (q * (10 : ℚ) ^ prec)
  let sign := if n < 0 then "-" else ""
  let m := n.natAbs
  sign ++ toString (m / 10 ^ prec) ++ "." ++ padZeros prec (toString (m % 10 ^ prec))

/-- `{:.4f}` (cell-related values). -/
def fmtFixed4 (q : ℚ) : String := fmtFixed 4 q

/-- `{:.3f}` (auxiliary analog values). -/
def fmtFixed3 (q : ℚ) : String := fmtFixed 3 q

/-!
## Channel-list encoding

The masked commands walk the bit mask from bit 0 upwards and collect
`i + 1` for every set bit, so the explicit channel list is always in
ascending order.
-/

/-- The 1-based channel indices selected by `mask` among `n` channels,
in the order the C++ loop emits them. -/
def maskBits (n mask : Nat) : List Nat :=
  ((List.range n).filter (fun i => mask.testBit i)).map (fun i => i + 1)

/-- Comma-joined decimal rendering of a channel index list (what
`fmt::join(chan_list, ",")` prints). -/
def joinComma (l : List Nat) : String :=
  String.intercalate "," (l.map toString)

/-!
## The SCPI client (`src/ScpiClient*.cpp`, `include/bci/abs/ScpiClient.h`)

The client holds an optional driver and a read timeout.  A driver is
abstracted by its observable outcomes: whether it is send-only, the
result of a write, and the result of a read.  Every operation returns
its result together with the trace of I/O events it performed.

The core `Send`/`SendAndRecv` of the current revision (the one the
header `include/bci/abs/ScpiClient.h` declares, with the
`read_timeout_ms_` member, the 150 ms default and the send-only
check) is not present under `src/`: `src/src/ScpiClient.cpp` is an
older revision that conflicts with that header (it defines an explicit
destructor the header defaults, and methods the header does not
declare) and predates the split `ScpiClient_*.cpp` files that call
`SendAndRecv`.  The error code `kReceiveNotAllowed` and its message
exist in `src/` but nothing under `src/` returns it.  The core is
therefore modelled from the spec, as follows. -/

/-- A comm driver abstracted by its observable outcomes
(`drivers::CommDriver`). -/
structure DriverM where
  isSendOnly : Bool
  writeRes : ErrorCode
  readRes : Except ErrorCode String
  deriving Repr

/-- `UdpMcastDriver::IsSendOnly` from
`include/bci/abs/UdpMulticastDriver.h`: always true. -/
def udpMcastIsSendOnly : Bool := true

/-- I/O events performed by a client operation. -/
inductive Ev
  | write (msg : String)
  | read (timeoutMs : Nat)
  deriving DecidableEq, Repr

/-- The client state: optional driver plus the read timeout
(`driver_` and `read_timeout_ms_` in `ScpiClient.h`). -/
structure Client where
  driver : Option DriverM
  readTimeoutMs : Nat
  deriving Repr

/-- Modelled from the spec: constructing a client attaches the driver
and initialises the read timeout to its 150 ms default ("read one line
with a configurable read-timeout (default ~150ms, overridable)";
`ScpiClient.h`: "The default is 150ms"). -/
def mkClient (d : DriverM) : Client := ⟨some d, 150⟩

/-- Modelled from the spec: `ScpiClient::SetReadTimeout` stores the
new read timeout and returns the previous value (`ScpiClient.h`:
"@return The previous timeout value."). -/
def setReadTimeout (c : Client) (t : Nat) : Nat × Client :=
  (c.readTimeoutMs, { c with readTimeoutMs := t })

/-- The fixed write timeout (`kWriteTimeoutMs` in
`src/src/ScpiClient.cpp`). -/
def kWriteTimeoutMs : Nat := 250

/-- Modelled from the spec: `ScpiClient::Send` — fail fast with
`kInvalidDriverHandle` when no driver is attached, otherwise write the
message with the fixed write timeout. -/
def send (c : Client) (msg : String) : ErrorCode × List Ev :=
  match c.driver with
  | none => (.kInvalidDriverHandle, [])
  | some d => (d.writeRes, [.write msg])

/-- Modelled from the spec: `ScpiClient::SendAndRecv` — fail fast with
no driver; write the message; on write failure surface that error; if
the driver is send-only skip the read and fail with
`kReceiveNotAllowed`; otherwise read one line with the client's read
timeout. -/
def sendAndRecv (c : Client) (msg : String) :
    Except ErrorCode String × List Ev :=
  match c.driver with
  | none => (.error .kInvalidDriverHandle, [])
  | some d =>
    if d.writeRes ≠ .kSuccess then (.error d.writeRes, [.write msg])
    else if d.isSendOnly then (.error .kReceiveNotAllowed, [.write msg])
    else (d.readRes, [.write msg, .read c.readTimeoutMs])

/-- `ScpiClient::EnableCell` (`src/ScpiClient_Cells.cpp`). -/
def enableCell (c : Client) (cell : Nat) (en : Bool) : ErrorCode × List Ev :=
  if kCellCount ≤ cell then (.kChannelIndexOutOfRange, [])
  else send c ("OUTP" ++ toString (cell + 1) ++ " " ++ (if en then "1" else "0") ++ "\r\n")

/-- `ScpiClient::EnableCellsMasked` (`src/ScpiClient_Cells.cpp`): mask
off the invalid bits, and if any cell remains selected emit the
explicit ascending channel list — there is no full-range special
case in this function. -/
def enableCellsMasked (c : Client) (cells : Nat) (en : Bool) :
    ErrorCode × List Ev :=
  let m := cells % 2 ^ kCellCount
  if m ≠ 0 then
    send c ("OUTP " ++ (if en then "1" else "0") ++ ",(@" ++
      joinComma (maskBits kCellCount m) ++ ")\r\n")
  else (.kSuccess, [])

/-- `ScpiClient::SetCellVoltage` (`src/ScpiClient_Cells.cpp`). -/
def setCellVoltage (c : Client) (cell : Nat) (voltage : ℚ) :
    ErrorCode × List Ev :=
  if kCellCount ≤ cell then (.kChannelIndexOutOfRange, [])
  else send c ("SOUR" ++ toString (cell + 1) ++ ":VOLT " ++
    fmtFixed4 (clampQ voltage 0 5) ++ "\r\n")

/-- `ScpiClient::SetAllCellVoltages(float)` — the single-value
broadcast overload, which uses the compact `(@1:8)` range form. -/
def setAllCellVoltagesBcast (c : Client) (voltage : ℚ) :
    ErrorCode × List Ev :=
  send c ("SOUR:VOLT " ++ fmtFixed4 (clampQ voltage 0 5) ++ ",(@1:" ++
    toString kCellCount ++ ")\r\n")

/-- One `:SOUR<i>:VOLT <v>;` piece of the bulk voltage command. -/
def cellVoltPiece (voltages : List ℚ) (i : Nat) : String :=
  ":SOUR" ++ toString (i + 1) ++ ":VOLT " ++
    fmtFixed4 (clampQ (voltages.getD i 0) 0 5) ++ ";"

/-- `ScpiClient::SetAllCellVoltages(const float*, std::size_t)`
(`src/ScpiClient_Cells.cpp`): the null/oversize check comes first,
then the empty-count early success, then one compound message.  A null
buffer is `none`. -/
def setAllCellVoltages (c : Client) (voltages : Option (List ℚ))
    (count : Nat) : ErrorCode × List Ev :=
  if (0 < count ∧ voltages = none) ∨ kCellCount < count then
    (.kInvalidArgument, [])
  else if count = 0 then (.kSuccess, [])
  else send c
    (String.join ((List.range count).map (cellVoltPiece (voltages.getD []))) ++ "\r\n")

/-- `ScpiClient::SetMultipleCellVoltages` (`src/ScpiClient_Cells.cpp`):
clamp, mask off invalid bits; an empty selection is a silent success;
the full mask delegates to the broadcast overload (compact range
form); otherwise the explicit ascending channel list is emitted. -/
def setMultipleCellVoltages (c : Client) (cells : Nat) (voltage : ℚ) :
    ErrorCode × List Ev :=
  let v := clampQ voltage 0 5
  let m := cells % 2 ^ kCellCount
  if m ≠ 0 then
    if m = 2 ^ kCellCount - 1 then setAllCellVoltagesBcast c v
    else
      send c ("SOUR:VOLT " ++ fmtFixed4 v ++ ",(@" ++
        joinComma (maskBits kCellCount m) ++ ")\r\n")
  else (.kSuccess, [])

/-- `ScpiClient::GetCellVoltageTarget` (`src/ScpiClient_Cells.cpp`). -/
def getCellVoltageTarget (c : Client) (cell : Nat) :
    Except ErrorCode FF × List Ev :=
  if kCellCount ≤ cell then (.error .kChannelIndexOutOfRange, [])
  else
    let r := sendAndRecv c ("SOUR" ++ toString (cell + 1) ++ ":VOLT?\r\n")
    (r.1.bind parseFloatResponse, r.2)

/-- `ScpiClient::GetAllCellVoltageTargets(float*, std::size_t)`
(`src/ScpiClient_Cells.cpp`); `hasBuf = false` models a null output
pointer.  Returns the error code and the trace (the parsed values go
to the caller's buffer in the C++ and are recoverable here through
`splitRespFloats`). -/
def getAllCellVoltageTargets (c : Client) (hasBuf : Bool) (count : Nat) :
    ErrorCode × List Ev :=
  if (hasBuf = false ∧ 0 < count) ∨ kCellCount < count then
    (.kInvalidArgument, [])
  else if count = 0 then (.kSuccess, [])
  else
    let r := sendAndRecv c ("SOUR:VOLT? (@1:" ++ toString count ++ ")\r\n")
    match r.1 with
    | .error e => (e, r.2)
    | .ok resp =>
      (match splitRespFloats resp count with
       | .ok _ => .kSuccess
       | .error e => e, r.2)

/-- `ScpiClient::SetAnalogOutput` (`src/ScpiClient_AuxIO.cpp`). -/
def setAnalogOutput (c : Client) (channel : Nat) (voltage : ℚ) :
    ErrorCode × List Ev :=
  if kAnalogOutputCount ≤ channel then (.kChannelIndexOutOfRange, [])
  else send c ("SOUR:AUX:OUT" ++ toString (channel + 1) ++ " " ++
    fmtFixed3 (clampQ voltage (-10) 10) ++ "\r\n")

/-- `ScpiClient::SetDigitalOutput` (`src/ScpiClient_AuxIO.cpp`). -/
def setDigitalOutput (c : Client) (channel : Nat) (level : Bool) :
    ErrorCode × List Ev :=
  if kDigitalOutputCount ≤ channel then (.kChannelIndexOutOfRange, [])
  else send c ("SOUR:DAUX:OUT" ++ toString (channel + 1) ++ " " ++
    (if level then "1" else "0") ++ "\r\n")

/-- `ScpiClient::SetAllDigitalOutputsMasked`
(`src/ScpiClient_AuxIO.cpp`): same shape as `EnableCellsMasked`, over
the four digital outputs; again no full-range special case. -/
def setAllDigitalOutputsMasked (c : Client) (channels : Nat) (level : Bool) :
    ErrorCode × List Ev :=
  let m := channels % 2 ^ kDigitalOutputCount
  if m ≠ 0 then
    send c ("SOUR:DAUX:OUT " ++ (if level then "1" else "0") ++ ",(@" ++
      joinComma (maskBits kDigitalOutputCount m) ++ ")\r\n")
  else (.kSuccess, [])

/-!
## The serial (RS-485) driver state (`src/SerialDriver.cpp`)
-/

/-- The serial driver's addressing state is its stored device ID
(`SerialDriver::Impl::dev_id_`, zero-initialised). -/
def serialInit : Nat := 0

/-- `SerialDriver::Impl::SetDeviceID`: `dev_id_ = std::clamp(id, 0U,
255U)` — the stored ID never exceeds 255. -/
def serialSetDeviceID (id : Nat) (_s : Nat) : Nat :=
  min id 255

/-- `SerialDriver::Impl::GetDeviceID`. -/
def serialGetDeviceID (s : Nat) : Nat := s

/-- `SerialDriver::Impl::IsBroadcast`: `dev_id_ > 255`. -/
def serialIsBroadcast (s : Nat) : Bool := 255 < s

/-- `SerialDriver::IsSendOnly` forwards to `IsBroadcast`. -/
def serialIsSendOnly (s : Nat) : Bool := serialIsBroadcast s

/-!
## Discovery (`src/Discovery.cpp`)
-/

/-- `UdpMcastDriver::AddressedResponse`: a reply line and the sender's
address. -/
structure AddrResp where
  ip : String
  data : String
  deriving DecidableEq, Repr

/-- I/O events of a multicast discovery scan. -/
inductive MEv
  | opened
  | wrote (msg : String)
  | readFrom
  deriving DecidableEq, Repr

/-- The read loop of `MulticastDiscovery`: each successful read is
parsed as a 4-field identity (`SplitRespMnemonics`), recording
`(sender ip, field 2)`; a failed parse aborts with
`kInvalidResponse`; a `kReadTimedOut` read ends the scan returning
what was collected; any other read error aborts with that error.
`reads` lists the successive driver outcomes; `none` means the
supplied outcomes ran out before the loop ended. -/
def mcastScan (reads : List (Except ErrorCode AddrResp)) :
    Option (Except ErrorCode (List (String × String))) × List MEv :=
  match reads with
  | [] => (none, [])
  | r :: rest =>
    match r with
    | .ok resp =>
      match splitRespMnemonics resp.data 4 with
      | .ok idn =>
        let t := mcastScan rest
        ((t.1).map (Except.map (fun l => (resp.ip, idn.getD 2 "") :: l)),
         MEv.readFrom :: t.2)
      | .error _ => (some (.error .kInvalidResponse), [MEv.readFrom])
    | .error e =>
      if e = .kReadTimedOut then (some (.ok []), [MEv.readFrom])
      else (some (.error e), [MEv.readFrom])

/-- `MulticastDiscovery` (`src/Discovery.cpp`): open the multicast
driver, send `*IDN?` once, then run the read loop. -/
def multicastDiscovery (openRes writeRes : ErrorCode)
    (reads : List (Except ErrorCode AddrResp)) :
    Option (Except ErrorCode (List (String × String))) × List MEv :=
  if openRes ≠ .kSuccess then (some (.error openRes), [.opened])
  else if writeRes ≠ .kSuccess then
    (some (.error writeRes), [.opened, .wrote "*IDN?\r\n"])
  else
    let t := mcastScan reads
    (t.1, .opened :: .wrote "*IDN?\r\n" :: t.2)

/-- I/O events of a serial discovery scan. -/
inductive DEv
  | opened
  | wrote (id : Nat) (msg : String)
  | read
  deriving DecidableEq, Repr

/-- The per-ID loop of `SerialDiscovery`: for each ID in turn, set the
device ID, write `*IDN?` (the write's result is not checked by the
C++), read with a short timeout; a successful read must parse as a
4-field identity (else abort with `kInvalidResponse`) and records
`(id, field 2)`; a timeout means "no unit here" and the loop
continues; any other read error aborts. -/
def serialScan (reads : Nat → Except ErrorCode String) (first : Nat) :
    Nat → Nat → Except ErrorCode (List (Nat × String)) × List DEv
  | _, 0 => (.ok [], [])
  | i, n + 1 =>
    let id := first + i
    let evs := [DEv.wrote id "*IDN?\r\n", DEv.read]
    match reads id with
    | .ok resp =>
      match splitRespMnemonics resp 4 with
      | .ok idn =>
        let t := serialScan reads first (i + 1) n
        ((t.1).map (fun l => (id, idn.getD 2 "") :: l), evs ++ t.2)
      | .error _ => (.error .kInvalidResponse, evs)
    | .error e =>
      if e = .kReadTimedOut then
        let t := serialScan reads first (i + 1) n
        (t.1, evs ++ t.2)
      else (.error e, evs)

/-- `SerialDiscovery` (`src/Discovery.cpp`): the range check
`last_id < first_id` comes before the port is even opened; then the
port opens and the ID sweep runs over the inclusive range. -/
def serialDiscovery (first last : Nat) (openRes : ErrorCode)
    (reads : Nat → Except ErrorCode String) :
    Except ErrorCode (List (Nat × String)) × List DEv :=
  if last < first then (.error .kInvalidArgument, [])
  else if openRes ≠ .kSuccess then (.error openRes, [.opened])
  else
    let t := serialScan reads first 0 (last - first + 1)
    (t.1, .opened :: t.2)

end AbsScpi

namespace AbsScpi

/-!
## Helper lemmas
-/

theorem serial_fold_le (ids : List Nat) (s : Nat) (h : s ≤ 255) :
    ids.foldl (fun st i => serialSetDeviceID i st) s ≤ 255 := by
  induction ids generalizing s with
  | nil => exact h
  | cons a l ih => exact ih _ (min_le_right _ _)

theorem clampQ_idem (v lo hi : ℚ) (h : lo ≤ hi) :
    clampQ (clampQ v lo hi) lo hi = clampQ v lo hi := by
  unfold clampQ
  split_ifs <;> first | rfl | linarith

theorem maskBits_sorted (n mask : Nat) :
    List.Pairwise (· < ·) (maskBits n mask) := by
  unfold maskBits
  refine List.pairwise_map.mpr ?_
  refine List.Pairwise.imp (fun h => Nat.add_lt_add_right h 1) ?_
  exact List.Pairwise.sublist (List.filter_sublist _) (List.pairwise_lt_range n)

end AbsScpi

namespace AbsScpi

/-- C2: the serial driver can never report send-only.
`SetDeviceID` clamps the stored ID to at most 255
(`std::clamp(id, 0U, 255U)`) while `IsBroadcast` requires the stored
ID to exceed 255, so after any sequence of `SetDeviceID` calls —
including the documented broadcast inputs 32 and 256+ — `IsSendOnly()`
is false.  This contradicts the claim (and the driver's own
documentation in `SerialDriver.h`, which says send-only holds for a
target device ID of 32 and up). -/
theorem serial_isSendOnly_never_true :
    serialIsSendOnly (serialSetDeviceID 32 serialInit) = false ∧
    serialIsSendOnly (serialSetDeviceID 256 serialInit) = false ∧
    serialIsSendOnly (serialSetDeviceID 300 serialInit) = false ∧
    ∀ ids : List Nat,
      serialIsSendOnly (ids.foldl (fun st i => serialSetDeviceID i st) serialInit) = false := by
  refine ⟨rfl, rfl, rfl, fun ids => ?_⟩
  have h := serial_fold_le ids serialInit (by norm_num [serialInit])
  simp only [serialIsSendOnly, serialIsBroadcast, decide_eq_false_iff_not, not_lt]
  exact h

/-- C8: mnemonic send and parse tables.  For each enum, building a
command uses the send table (`CellFaultMnemonic`,
`CellSenseRangeMnemonic`, `CellPrecisionModeMnemonic`) and parsing a
reply uses the parse table (`ParseCellFault`, `ParseCellSenseRange`,
`ParseCellPrecisionMode`, `ParseCellOperatingMode`); for fault, sense
range and precision mode the two tables differ (and the sent string
does not even parse back).  The operating mode is query-only: the
code has no command-building mnemonic for `CellMode`, only the parse
table (`"CV"`/`"ILIM"`). -/
theorem mnemonic_tables_send_parse :
    (cellFaultMnemonic .kNone = "NONE" ∧ cellFaultMnemonic .kOpenCircuit = "OPEN" ∧
     cellFaultMnemonic .kShortCircuit = "SHORT" ∧ cellFaultMnemonic .kPolarity = "POL") ∧
    (parseCellFault "NONE" = .ok .kNone ∧ parseCellFault "OPENCIRCUIT" = .ok .kOpenCircuit ∧
     parseCellFault "SHORTCIRCUIT" = .ok .kShortCircuit ∧ parseCellFault "POLARITY" = .ok .kPolarity) ∧
    (cellSenseRangeMnemonic .kAuto = "AUTO" ∧ cellSenseRangeMnemonic .kLow = "LO" ∧
     cellSenseRangeMnemonic .kHigh = "HI") ∧
    (parseCellSenseRange "AUTO" = .ok .kAuto ∧ parseCellSenseRange "LOW" = .ok .kLow ∧
     parseCellSenseRange "HIGH" = .ok .kHigh) ∧
    (cellPrecisionModeMnemonic .kNormal = "NORM" ∧ cellPrecisionModeMnemonic .kHighPrecision = "PREC" ∧
     cellPrecisionModeMnemonic .kNoiseRejection = "FILT") ∧
    (parseCellPrecisionMode "NORMAL" = .ok .kNormal ∧
     parseCellPrecisionMode "PRECISION" = .ok .kHighPrecision ∧
     parseCellPrecisionMode "FILTER" = .ok .kNoiseRejection) ∧
    (parseCellOperatingMode "CV" = .ok .kConstantVoltage ∧
     parseCellOperatingMode "ILIM" = .ok .kCurrentLimited) ∧
    (cellFaultMnemonic .kOpenCircuit ≠ "OPENCIRCUIT" ∧
     parseCellFault "OPEN" = .error .kInvalidResponse) ∧
    (cellSenseRangeMnemonic .kLow ≠ "LOW" ∧
     parseCellSenseRange "LO" = .error .kInvalidResponse) ∧
    (cellPrecisionModeMnemonic .kHighPrecision ≠ "PRECISION" ∧
     parseCellPrecisionMode "PREC" = .error .kInvalidResponse) := by
  decide

end AbsScpi

namespace AbsScpi

/-- C5: the client's read timeout defaults to 150 ms, `SetReadTimeout`
returns the previous value and changes only the timeout, and every
query's read is performed with the client's current read timeout —
in particular, after `SetReadTimeout t` subsequent reads use `t`. -/
theorem read_timeout_default_and_set :
    (∀ d : DriverM, (mkClient d).readTimeoutMs = 150 ∧ (mkClient d).driver = some d) ∧
    (∀ (c : Client) (t : Nat),
      (setReadTimeout c t).1 = c.readTimeoutMs ∧
      (setReadTimeout c t).2.readTimeoutMs = t ∧
      (setReadTimeout c t).2.driver = c.driver) ∧
    (∀ (c : Client) (d : DriverM) (msg : String),
      c.driver = some d → d.writeRes = .kSuccess → d.isSendOnly = false →
      (sendAndRecv c msg).2 = [.write msg, .read c.readTimeoutMs]) ∧
    (∀ (c : Client) (d : DriverM) (t : Nat) (msg : String),
      c.driver = some d → d.writeRes = .kSuccess → d.isSendOnly = false →
      (sendAndRecv (setReadTimeout c t).2 msg).2 = [.write msg, .read t]) := by
  refine ⟨fun d => ⟨rfl, rfl⟩, fun c t => ⟨rfl, rfl, rfl⟩, ?_, ?_⟩
  · intro c d msg hd hw hs
    simp [sendAndRecv, hd, hw, hs]
  · intro c d t msg hd hw hs
    simp [sendAndRecv, setReadTimeout, hd, hw, hs]

/-- Witness for C5 at a concrete driver and timeout. -/
theorem read_timeout_default_and_set_w :
    (mkClient ⟨false, .kSuccess, .ok "OK"⟩).readTimeoutMs = 150 ∧
    (setReadTimeout (mkClient ⟨false, .kSuccess, .ok "OK"⟩) 70).1 = 150 ∧
    (sendAndRecv (setReadTimeout (mkClient ⟨false, .kSuccess, .ok "OK"⟩) 70).2 "MEAS1:VOLT?\r\n").2
      = [.write "MEAS1:VOLT?\r\n", .read 70] :=
  ⟨(read_timeout_default_and_set.1 _).1,
   (read_timeout_default_and_set.2.1 _ 70).1,
   read_timeout_default_and_set.2.2.2 _ ⟨false, .kSuccess, .ok "OK"⟩ 70 _ rfl rfl rfl⟩

/-- C1: a query against a send-only driver fails with
`kReceiveNotAllowed` (after the write, which the spec performs first)
and never attempts a read; this holds for the core `SendAndRecv` and
hence for every query-shaped operation, here also instantiated for
`GetCellVoltageTarget`.  The multicast driver reports send-only
unconditionally. -/
theorem sendOnly_query_receiveNotAllowed :
    udpMcastIsSendOnly = true ∧
    (∀ (c : Client) (d : DriverM) (msg : String),
      c.driver = some d → d.isSendOnly = true →
      (d.writeRes = .kSuccess → (sendAndRecv c msg).1 = .error .kReceiveNotAllowed) ∧
      ∀ t, Ev.read t ∉ (sendAndRecv c msg).2) ∧
    (∀ (c : Client) (d : DriverM) (cell : Nat),
      c.driver = some d → d.isSendOnly = true → d.writeRes = .kSuccess → cell < kCellCount →
      (getCellVoltageTarget c cell).1 = .error .kReceiveNotAllowed ∧
      ∀ t, Ev.read t ∉ (getCellVoltageTarget c cell).2) := by
  refine ⟨rfl, ?_, ?_⟩
  · intro c d msg hd hs
    constructor
    · intro hw
      simp [sendAndRecv, hd, hw, hs]
    · intro t
      by_cases hw : d.writeRes = .kSuccess <;> simp [sendAndRecv, hd, hw, hs]
  · intro c d cell hd hs hw hcell
    have hlt : ¬ kCellCount ≤ cell := not_le.mpr hcell
    constructor
    · simp [getCellVoltageTarget, hlt, sendAndRecv, hd, hw, hs, Except.bind]
    · intro t
      simp [getCellVoltageTarget, hlt, sendAndRecv, hd, hw, hs]

/-- Witness for C1: a multicast-like (send-only) driver answers a
query with `kReceiveNotAllowed` and no read occurs. -/
theorem sendOnly_query_receiveNotAllowed_w :
    (sendAndRecv (mkClient ⟨udpMcastIsSendOnly, .kSuccess, .ok "resp"⟩) "SOUR1:VOLT?\r\n").1
        = .error .kReceiveNotAllowed ∧
    Ev.read 150 ∉ (sendAndRecv (mkClient ⟨udpMcastIsSendOnly, .kSuccess, .ok "resp"⟩) "SOUR1:VOLT?\r\n").2 ∧
    (getCellVoltageTarget (mkClient ⟨udpMcastIsSendOnly, .kSuccess, .ok "resp"⟩) 0).1
        = .error .kReceiveNotAllowed :=
  ⟨(sendOnly_query_receiveNotAllowed.2.1 _ ⟨udpMcastIsSendOnly, .kSuccess, .ok "resp"⟩ _ rfl rfl).1 rfl,
   (sendOnly_query_receiveNotAllowed.2.1 _ ⟨udpMcastIsSendOnly, .kSuccess, .ok "resp"⟩ _ rfl rfl).2 150,
   (sendOnly_query_receiveNotAllowed.2.2 _ ⟨udpMcastIsSendOnly, .kSuccess, .ok "resp"⟩ 0 rfl rfl rfl (by norm_num [kCellCount])).1⟩

end AbsScpi

namespace AbsScpi

/-- C6: argument errors are detected before any I/O.  An out-of-range
channel index yields `kChannelIndexOutOfRange` with an empty event
trace (no write, no read), for setters and getters alike; a bulk
count above the channel count, or a null buffer with a nonzero count,
yields `kInvalidArgument` with no I/O; and serial discovery with
`last < first` yields `kInvalidArgument` without even opening the
port. -/
theorem argument_errors_before_io :
    (∀ (c : Client) (cell : Nat) (v : ℚ), kCellCount ≤ cell →
      setCellVoltage c cell v = (.kChannelIndexOutOfRange, [])) ∧
    (∀ (c : Client) (cell : Nat) (en : Bool), kCellCount ≤ cell →
      enableCell c cell en = (.kChannelIndexOutOfRange, [])) ∧
    (∀ (c : Client) (cell : Nat), kCellCount ≤ cell →
      getCellVoltageTarget c cell = (.error .kChannelIndexOutOfRange, [])) ∧
    (∀ (c : Client) (ch : Nat) (v : ℚ), kAnalogOutputCount ≤ ch →
      setAnalogOutput c ch v = (.kChannelIndexOutOfRange, [])) ∧
    (∀ (c : Client) (ch : Nat) (b : Bool), kDigitalOutputCount ≤ ch →
      setDigitalOutput c ch b = (.kChannelIndexOutOfRange, [])) ∧
    (∀ (c : Client) (vs : Option (List ℚ)) (count : Nat), kCellCount < count →
      setAllCellVoltages c vs count = (.kInvalidArgument, [])) ∧
    (∀ (c : Client) (count : Nat), 0 < count →
      setAllCellVoltages c none count = (.kInvalidArgument, [])) ∧
    (∀ (c : Client) (count : Nat), kCellCount < count →
      getAllCellVoltageTargets c true count = (.kInvalidArgument, [])) ∧
    (∀ (c : Client) (count : Nat), 0 < count →
      getAllCellVoltageTargets c false count = (.kInvalidArgument, [])) ∧
    (∀ (first last : Nat) (openRes : ErrorCode) (reads : Nat → Except ErrorCode String),
      last < first →
      serialDiscovery first last openRes reads = (.error .kInvalidArgument, [])) := by
  refine ⟨?_, ?_, ?_, ?_, ?_, ?_, ?_, ?_, ?_, ?_⟩
  · intro c cell v h; simp [setCellVoltage, h]
  · intro c cell en h; simp [enableCell, h]
  · intro c cell h; simp [getCellVoltageTarget, h]
  · intro c ch v h; simp [setAnalogOutput, h]
  · intro c ch b h; simp [setDigitalOutput, h]
  · intro c vs count h
    unfold setAllCellVoltages
    rw [if_pos (Or.inr h)]
  · intro c count h
    unfold setAllCellVoltages
    rw [if_pos (Or.inl ⟨h, rfl⟩)]
  · intro c count h
    unfold getAllCellVoltageTargets
    rw [if_pos (Or.inr h)]
  · intro c count h
    unfold getAllCellVoltageTargets
    rw [if_pos (Or.inl ⟨rfl, h⟩)]
  · intro first last openRes reads h
    simp [serialDiscovery, h]

/-- Witness for C6 at concrete out-of-range arguments. -/
theorem argument_errors_before_io_w :
    setCellVoltage (mkClient ⟨false, .kSuccess, .ok ""⟩) 8 1 = (.kChannelIndexOutOfRange, []) ∧
    getCellVoltageTarget (mkClient ⟨false, .kSuccess, .ok ""⟩) 9 = (.error .kChannelIndexOutOfRange, []) ∧
    setDigitalOutput (mkClient ⟨false, .kSuccess, .ok ""⟩) 4 true = (.kChannelIndexOutOfRange, []) ∧
    setAllCellVoltages (mkClient ⟨false, .kSuccess, .ok ""⟩) (some (List.replicate 9 1)) 9 = (.kInvalidArgument, []) ∧
    setAllCellVoltages (mkClient ⟨false, .kSuccess, .ok ""⟩) none 3 = (.kInvalidArgument, []) ∧
    serialDiscovery 5 2 .kSuccess (fun _ => .error .kReadTimedOut) = (.error .kInvalidArgument, []) :=
  ⟨argument_errors_before_io.1 _ 8 1 (by norm_num [kCellCount]),
   argument_errors_before_io.2.2.1 _ 9 (by norm_num [kCellCount]),
   argument_errors_before_io.2.2.2.2.1 _ 4 true (by norm_num [kDigitalOutputCount]),
   argument_errors_before_io.2.2.2.2.2.1 _ _ 9 (by norm_num [kCellCount]),
   argument_errors_before_io.2.2.2.2.2.2.1 _ 3 (by norm_num),
   argument_errors_before_io.2.2.2.2.2.2.2.2.2 5 2 .kSuccess _ (by norm_num)⟩

/-- C10: bulk operations with a zero count succeed immediately with no
I/O (even with a null buffer), and masked operations ignore mask bits
at or above the channel count — in particular a mask with no valid
bit set succeeds with no I/O. -/
theorem bulk_zero_and_mask_ignore :
    (∀ (c : Client) (vs : Option (List ℚ)), setAllCellVoltages c vs 0 = (.kSuccess, [])) ∧
    (∀ (c : Client) (hasBuf : Bool), getAllCellVoltageTargets c hasBuf 0 = (.kSuccess, [])) ∧
    (∀ (c : Client) (m : Nat) (en : Bool),
      enableCellsMasked c m en = enableCellsMasked c (m % 2 ^ kCellCount) en) ∧
    (∀ (c : Client) (m : Nat) (en : Bool), m % 2 ^ kCellCount = 0 →
      enableCellsMasked c m en = (.kSuccess, [])) ∧
    (∀ (c : Client) (m : Nat) (v : ℚ), m % 2 ^ kCellCount = 0 →
      setMultipleCellVoltages c m v = (.kSuccess, [])) ∧
    (∀ (c : Client) (m : Nat) (lvl : Bool),
      setAllDigitalOutputsMasked c m lvl = setAllDigitalOutputsMasked c (m % 2 ^ kDigitalOutputCount) lvl) ∧
    (∀ (c : Client) (m : Nat) (lvl : Bool), m % 2 ^ kDigitalOutputCount = 0 →
      setAllDigitalOutputsMasked c m lvl = (.kSuccess, [])) := by
  refine ⟨?_, ?_, ?_, ?_, ?_, ?_, ?_⟩
  · intro c vs
    by_cases hv : vs = none
    · subst hv; simp [setAllCellVoltages]
    · simp [setAllCellVoltages, hv]
  · intro c hasBuf
    cases hasBuf <;> simp [getAllCellVoltageTargets]
  · intro c m en
    simp [enableCellsMasked, Nat.mod_mod_of_dvd _ dvd_rfl]
  · intro c m en h; simp [enableCellsMasked, h]
  · intro c m v h; simp [setMultipleCellVoltages, h]
  · intro c m lvl
    simp [setAllDigitalOutputsMasked, Nat.mod_mod_of_dvd _ dvd_rfl]
  · intro c m lvl h; simp [setAllDigitalOutputsMasked, h]

/-- Witness for C10: zero-count bulk calls and out-of-range-only masks
are silent successes. -/
theorem bulk_zero_and_mask_ignore_w :
    setAllCellVoltages (mkClient ⟨false, .kSuccess, .ok ""⟩) none 0 = (.kSuccess, []) ∧
    getAllCellVoltageTargets (mkClient ⟨false, .kSuccess, .ok ""⟩) false 0 = (.kSuccess, []) ∧
    enableCellsMasked (mkClient ⟨false, .kSuccess, .ok ""⟩) 256 true = (.kSuccess, []) ∧
    setAllDigitalOutputsMasked (mkClient ⟨false, .kSuccess, .ok ""⟩) 16 true = (.kSuccess, []) :=
  ⟨bulk_zero_and_mask_ignore.1 _ none,
   bulk_zero_and_mask_ignore.2.1 _ false,
   bulk_zero_and_mask_ignore.2.2.2.1 _ 256 true (by norm_num [kCellCount]),
   bulk_zero_and_mask_ignore.2.2.2.2.2.2 _ 16 true (by norm_num [kDigitalOutputCount])⟩

end AbsScpi

namespace AbsScpi

/-- C3 counterexample: `EnableCellsMasked` with all 8 cell bits set
emits the explicit list `(@1,2,3,4,5,6,7,8)`, not the compact range
form `(@1:8)` the claim asserts. -/
theorem enableCellsMasked_full_mask_explicit_list :
    (enableCellsMasked (mkClient ⟨false, .kSuccess, .ok ""⟩) 255 true).2
        = [Ev.write "OUTP 1,(@1,2,3,4,5,6,7,8)\r\n"] ∧
    ("OUTP 1,(@1,2,3,4,5,6,7,8)\r\n" : String) ≠ "OUTP 1,(@1:8)\r\n" := by
  constructor
  · rfl
  · decide

/-- C3 (amended): masked commands emit the selected channel indices in
ascending order; the `SetMultipleCell*` family does produce the
compact `(@1:N)` form for the full mask (by delegating to the
broadcast overload) and the explicit ascending list for any other
nonempty mask; but `EnableCellsMasked` (and likewise
`SetAllDigitalOutputsMasked`) always emits the explicit ascending
list, even when the mask selects the full contiguous range. -/
theorem channel_list_encoding_amended :
    (∀ n m : Nat, List.Pairwise (· < ·) (maskBits n m)) ∧
    (∀ (c : Client) (v : ℚ),
      setMultipleCellVoltages c 255 v =
        send c ("SOUR:VOLT " ++ fmtFixed4 (clampQ v 0 5) ++ ",(@1:8)\r\n")) ∧
    (∀ (c : Client) (m : Nat) (v : ℚ),
      m % 2 ^ kCellCount ≠ 0 → m % 2 ^ kCellCount ≠ 255 →
      setMultipleCellVoltages c m v =
        send c ("SOUR:VOLT " ++ fmtFixed4 (clampQ v 0 5) ++ ",(@" ++
          joinComma (maskBits kCellCount (m % 2 ^ kCellCount)) ++ ")\r\n")) ∧
    (∀ (c : Client) (m : Nat) (en : Bool), m % 2 ^ kCellCount ≠ 0 →
      enableCellsMasked c m en =
        send c ("OUTP " ++ (if en then "1" else "0") ++ ",(@" ++
          joinComma (maskBits kCellCount (m % 2 ^ kCellCount)) ++ ")\r\n")) := by
  refine ⟨fun n m => maskBits_sorted n m, ?_, ?_, ?_⟩
  · intro c v
    have hc : clampQ (clampQ v 0 5) 0 5 = clampQ v 0 5 := clampQ_idem v 0 5 (by norm_num)
    have hs : (",(@1:" ++ (toString (8 : Nat) ++ ")\r\n") : String) = ",(@1:8)\r\n" := by decide
    simp only [setMultipleCellVoltages, setAllCellVoltagesBcast, kCellCount]
    norm_num [hc]
    simp only [String.append_assoc, hs]
  · intro c m v h0 h255
    have h0x : m % 256 ≠ 0 := by simpa [kCellCount] using h0
    have h255x : m % 256 ≠ 255 := by simpa [kCellCount] using h255
    simp only [setMultipleCellVoltages, kCellCount]
    norm_num [h0x, h255x]
  · intro c m en h0
    have h0x : m % 256 ≠ 0 := by simpa [kCellCount] using h0
    simp only [enableCellsMasked, kCellCount]
    norm_num [h0x]

/-- Witness for C3 (amended) at the concrete proper subset mask 5
(cells 1 and 3) and a full mask. -/
theorem channel_list_encoding_amended_w :
    setMultipleCellVoltages (mkClient ⟨false, .kSuccess, .ok ""⟩) 5 7 =
      send (mkClient ⟨false, .kSuccess, .ok ""⟩)
        ("SOUR:VOLT " ++ fmtFixed4 (clampQ 7 0 5) ++ ",(@" ++
          joinComma (maskBits kCellCount (5 % 2 ^ kCellCount)) ++ ")\r\n") ∧
    setMultipleCellVoltages (mkClient ⟨false, .kSuccess, .ok ""⟩) 255 7 =
      send (mkClient ⟨false, .kSuccess, .ok ""⟩)
        ("SOUR:VOLT " ++ fmtFixed4 (clampQ 7 0 5) ++ ",(@1:8)\r\n") :=
  ⟨channel_list_encoding_amended.2.2.1 _ 5 7 (by norm_num [kCellCount]) (by norm_num [kCellCount]),
   channel_list_encoding_amended.2.1 _ 7⟩

end AbsScpi

namespace AbsScpi

theorem parseTokens_ok_iff {α : Type} (f : String → Except ErrorCode α) :
    ∀ (ts : List String) (k : Nat),
      (∃ vs, parseTokens f ts k = .ok vs) ↔
        (ts.length = k ∧ ∀ t ∈ ts, ∃ v, f t = .ok v) := by
  intro ts
  induction ts with
  | nil =>
    intro k
    cases k with
    | zero => simp [parseTokens]
    | succ k => simp [parseTokens]
  | cons t ts ih =>
    intro k
    cases k with
    | zero => simp [parseTokens]
    | succ k =>
      cases hft : f t with
      | ok v =>
        constructor
        · rintro ⟨vs, hvs⟩
          simp only [parseTokens, hft] at hvs
          cases hrec : parseTokens f ts k with
          | ok ws =>
            have := (ih k).mp ⟨ws, hrec⟩
            exact ⟨by simp [this.1], by
              intro u hu
              rcases List.mem_cons.mp hu with rfl | hu
              · exact ⟨v, hft⟩
              · exact this.2 u hu⟩
          | error e => rw [hrec] at hvs; simp [Except.map] at hvs
        · rintro ⟨hlen, hall⟩
          have hlen' : ts.length = k := by simpa using hlen
          obtain ⟨ws, hws⟩ := (ih k).mpr ⟨hlen', fun u hu => hall u (List.mem_cons_of_mem _ hu)⟩
          exact ⟨v :: ws, by simp [parseTokens, hft, hws, Except.map]⟩
      | error e =>
        constructor
        · rintro ⟨vs, hvs⟩
          simp [parseTokens, hft] at hvs
        · rintro ⟨hlen, hall⟩
          obtain ⟨v, hv⟩ := hall t (List.mem_cons_self t ts)
          rw [hft] at hv
          cases hv

theorem parseTokens_fail_invalid {α : Type} (f : String → Except ErrorCode α)
    (hf : ∀ t e, f t = .error e → e = .kInvalidResponse) :
    ∀ (ts : List String) (k : Nat),
      (∃ vs, parseTokens f ts k = .ok vs) ∨
        parseTokens f ts k = .error .kInvalidResponse := by
  intro ts
  induction ts with
  | nil =>
    intro k
    cases k with
    | zero => exact Or.inl ⟨[], rfl⟩
    | succ k => exact Or.inr (by simp [parseTokens])
  | cons t ts ih =>
    intro k
    cases k with
    | zero => exact Or.inr (by simp [parseTokens])
    | succ k =>
      cases hft : f t with
      | ok v =>
        rcases ih k with ⟨vs, hvs⟩ | herr
        · exact Or.inl ⟨v :: vs, by simp [parseTokens, hft, hvs, Except.map]⟩
        · exact Or.inr (by simp [parseTokens, hft, herr, Except.map])
      | error e =>
        have he := hf t e hft
        subst he
        exact Or.inr (by simp [parseTokens, hft])

theorem floatTok_ok_iff (t : String) :
    (∃ v, floatTok t = .ok v) ↔ (strViewToFloat t).isSome := by
  cases h : strViewToFloat t <;> simp [floatTok, h]

theorem boolTok_ok_iff (t : String) :
    (∃ v, boolTok t = .ok v) ↔ (strViewToBool t).isSome := by
  cases h : strViewToBool t <;> simp [boolTok, h]

theorem floatTok_err (t : String) (e : ErrorCode) (h : floatTok t = .error e) :
    e = .kInvalidResponse := by
  cases hs : strViewToFloat t
  · simp [floatTok, hs] at h
    simp [h]
  · simp [floatTok, hs] at h

theorem boolTok_err (t : String) (e : ErrorCode) (h : boolTok t = .error e) :
    e = .kInvalidResponse := by
  cases hs : strViewToBool t
  · simp [boolTok, hs] at h
    simp [h]
  · simp [boolTok, hs] at h

theorem parseCellFault_err (t : String) (e : ErrorCode)
    (h : parseCellFault t = .error e) : e = .kInvalidResponse := by
  cases hs : faultOpts.find? (fun p => trimString t = p.1)
  · simp [parseCellFault, hs] at h
    simp [h]
  · simp [parseCellFault, hs] at h

/-- C7: strict arity of the comma-separated array parsers.  For every
response and expected length `k`, parsing succeeds exactly when the
trimmed response splits into exactly `k` comma-separated tokens each
of which the element parser accepts; otherwise — too few tokens, too
many tokens, or any unparsable token — the result is the error
`kInvalidResponse`.  Stated for float arrays, boolean arrays, and
mnemonic-enum arrays (cell faults). -/
theorem array_parse_strict_arity :
    ∀ (resp : String) (k : Nat),
      ((∃ vs, splitRespFloats resp k = .ok vs) ↔
        ((tokensOf resp).length = k ∧ ∀ t ∈ tokensOf resp, (strViewToFloat t).isSome)) ∧
      ((∃ vs, splitRespFloats resp k = .ok vs) ∨
        splitRespFloats resp k = .error .kInvalidResponse) ∧
      ((∃ vs, splitRespBools resp k = .ok vs) ↔
        ((tokensOf resp).length = k ∧ ∀ t ∈ tokensOf resp, (strViewToBool t).isSome)) ∧
      ((∃ vs, splitRespBools resp k = .ok vs) ∨
        splitRespBools resp k = .error .kInvalidResponse) ∧
      ((∃ vs, parseRespCellFaults resp k = .ok vs) ↔
        ((tokensOf resp).length = k ∧ ∀ t ∈ tokensOf resp, ∃ v, parseCellFault t = .ok v)) ∧
      ((∃ vs, parseRespCellFaults resp k = .ok vs) ∨
        parseRespCellFaults resp k = .error .kInvalidResponse) := by
  intro resp k
  refine ⟨?_, ?_, ?_, ?_, ?_, ?_⟩
  · rw [splitRespFloats, splitResp, parseTokens_ok_iff]
    exact and_congr_right (fun _ => forall₂_congr (fun t _ => floatTok_ok_iff t))
  · exact parseTokens_fail_invalid floatTok floatTok_err (tokensOf resp) k
  · rw [splitRespBools, splitResp, parseTokens_ok_iff]
    exact and_congr_right (fun _ => forall₂_congr (fun t _ => boolTok_ok_iff t))
  · exact parseTokens_fail_invalid boolTok boolTok_err (tokensOf resp) k
  · rw [parseRespCellFaults, splitResp, parseTokens_ok_iff]
  · exact parseTokens_fail_invalid parseCellFault parseCellFault_err (tokensOf resp) k

end AbsScpi

namespace AbsScpi

theorem mcastScan_good_then_err (fields : AddrResp → List String) :
    ∀ (good : List AddrResp),
      (∀ r ∈ good, splitRespMnemonics r.data 4 = .ok (fields r)) →
      ∀ (e : ErrorCode) (rest : List (Except ErrorCode AddrResp)),
        mcastScan (good.map .ok ++ .error e :: rest) =
          (some (if e = .kReadTimedOut
                 then .ok (good.map (fun r => (r.ip, (fields r).getD 2 "")))
                 else .error e),
           List.replicate (good.length + 1) .readFrom) := by
  intro good
  induction good with
  | nil =>
    intro _ e rest
    by_cases he : e = .kReadTimedOut <;> simp [mcastScan, he]
  | cons r gs ih =>
    intro hg e rest
    have hr : splitRespMnemonics r.data 4 = .ok (fields r) :=
      hg r (List.mem_cons_self r gs)
    have hgs : ∀ x ∈ gs, splitRespMnemonics x.data 4 = .ok (fields x) :=
      fun x hx => hg x (List.mem_cons_of_mem _ hx)
    have hrec := ih hgs e rest
    by_cases he : e = .kReadTimedOut
    · subst he
      simp only [List.map_cons, List.cons_append, mcastScan, hr]
      simp [hrec, Except.map, List.replicate_succ]
    · simp only [List.map_cons, List.cons_append, mcastScan, hr]
      simp [hrec, he, Except.map, List.replicate_succ]

theorem mcastScan_good_then_bad (fields : AddrResp → List String) :
    ∀ (good : List AddrResp),
      (∀ r ∈ good, splitRespMnemonics r.data 4 = .ok (fields r)) →
      ∀ (bad : AddrResp) (eb : ErrorCode),
        splitRespMnemonics bad.data 4 = .error eb →
        ∀ (rest : List (Except ErrorCode AddrResp)),
          mcastScan (good.map .ok ++ .ok bad :: rest) =
            (some (.error .kInvalidResponse),
             List.replicate (good.length + 1) .readFrom) := by
  intro good
  induction good with
  | nil =>
    intro _ bad eb hbad rest
    simp [mcastScan, hbad]
  | cons r gs ih =>
    intro hg bad eb hbad rest
    have hr : splitRespMnemonics r.data 4 = .ok (fields r) :=
      hg r (List.mem_cons_self r gs)
    have hgs : ∀ x ∈ gs, splitRespMnemonics x.data 4 = .ok (fields x) :=
      fun x hx => hg x (List.mem_cons_of_mem _ hx)
    have hrec := ih hgs bad eb hbad rest
    simp only [List.map_cons, List.cons_append, mcastScan, hr]
    simp [hrec, Except.map, List.replicate_succ]

/-- C9: multicast discovery sends the identity query once and collects
`(sender address, identity field 2)` per successfully parsed reply, in
arrival order.  The first read that fails with `kReadTimedOut` ends
the scan successfully with everything collected so far; a read failing
with any other error surfaces that error; a reply that does not parse
as a 4-field identity aborts with `kInvalidResponse`.  The event
trace is always: one open, one write of `*IDN?`, then one read per
loop iteration. -/
theorem multicast_discovery_scan :
    (∀ (good : List AddrResp) (fields : AddrResp → List String)
       (e : ErrorCode) (rest : List (Except ErrorCode AddrResp)),
      (∀ r ∈ good, splitRespMnemonics r.data 4 = .ok (fields r)) →
      multicastDiscovery .kSuccess .kSuccess (good.map .ok ++ .error e :: rest) =
        (some (if e = .kReadTimedOut
               then .ok (good.map (fun r => (r.ip, (fields r).getD 2 "")))
               else .error e),
         .opened :: .wrote "*IDN?\r\n" :: List.replicate (good.length + 1) .readFrom)) ∧
    (∀ (good : List AddrResp) (fields : AddrResp → List String)
       (bad : AddrResp) (eb : ErrorCode) (rest : List (Except ErrorCode AddrResp)),
      (∀ r ∈ good, splitRespMnemonics r.data 4 = .ok (fields r)) →
      splitRespMnemonics bad.data 4 = .error eb →
      multicastDiscovery .kSuccess .kSuccess (good.map .ok ++ .ok bad :: rest) =
        (some (.error .kInvalidResponse),
         .opened :: .wrote "*IDN?\r\n" :: List.replicate (good.length + 1) .readFrom)) := by
  constructor
  · intro good fields e rest hg
    have h := mcastScan_good_then_err fields good hg e rest
    simp [multicastDiscovery, h]
  · intro good fields bad eb rest hg hbad
    have h := mcastScan_good_then_bad fields good hg bad eb hbad rest
    simp [multicastDiscovery, h]

/-- Witness for C9: two address-tagged replies from distinct senders
followed by a timeout produce exactly two entries in arrival order,
and the timeout is not propagated as an error. -/
theorem multicast_discovery_scan_w :
    multicastDiscovery .kSuccess .kSuccess
        [.ok ⟨"ip1", "a,b,SER1,d"⟩, .ok ⟨"ip2", "a,b,SER2,d"⟩, .error .kReadTimedOut] =
      (some (.ok [("ip1", "SER1"), ("ip2", "SER2")]),
       [.opened, .wrote "*IDN?\r\n", .readFrom, .readFrom, .readFrom]) := by
  have h := multicast_discovery_scan.1
    [⟨"ip1", "a,b,SER1,d"⟩, ⟨"ip2", "a,b,SER2,d"⟩]
    (fun r => tokensOf r.data) .kReadTimedOut [] (by decide)
  simp only [List.map_cons, List.map_nil, List.cons_append, List.nil_append] at h
  rw [h]
  decide

end AbsScpi

namespace AbsScpi

theorem spanDigits_cons_digit {c : Char} (h : c.isDigit = true) (l : List Char) :
    spanDigits (c :: l) = (c :: (spanDigits l).1, (spanDigits l).2) := by
  simp [spanDigits, h]

theorem spanDigits_cons_not {c : Char} (h : c.isDigit = false) (l : List Char) :
    spanDigits (c :: l) = ([], c :: l) := by
  simp [spanDigits, h]

theorem spanDigits_append_nil {p d : List Char} (h : spanDigits p = (d, []))
    (q : List Char) :
    spanDigits (p ++ q) = (d ++ (spanDigits q).1, (spanDigits q).2) := by
  induction p generalizing d with
  | nil =>
    simp only [spanDigits, Prod.mk.injEq] at h
    obtain ⟨h1, -⟩ := h
    subst h1
    simp
  | cons c cs ih =>
    by_cases hc : c.isDigit
    · rw [spanDigits_cons_digit hc] at h
      rcases hsp : spanDigits cs with ⟨d1, r1⟩
      rw [hsp] at h
      rw [Prod.mk.injEq] at h
      obtain ⟨hd, hr⟩ := h
      subst hr
      subst hd
      have hrec := ih hsp
      simp only [List.cons_append, spanDigits_cons_digit hc, hrec]
    · have hc' : c.isDigit = false := by simpa using hc
      rw [spanDigits_cons_not hc'] at h
      rw [Prod.mk.injEq] at h
      exact absurd h.2 (List.cons_ne_nil c cs)

theorem spanDigits_append_cons {p d r : List Char} {c0 : Char}
    (h : spanDigits p = (d, c0 :: r)) (q : List Char) :
    spanDigits (p ++ q) = (d, c0 :: (r ++ q)) := by
  induction p generalizing d with
  | nil =>
    simp [spanDigits] at h
  | cons c cs ih =>
    by_cases hc : c.isDigit
    · rw [spanDigits_cons_digit hc] at h
      rcases hsp : spanDigits cs with ⟨d1, r1⟩
      rw [hsp] at h
      rw [Prod.mk.injEq] at h
      obtain ⟨hd, hr⟩ := h
      subst hr
      subst hd
      have hrec := ih hsp
      simp only [List.cons_append, spanDigits_cons_digit hc, hrec]
    · have hc' : c.isDigit = false := by simpa using hc
      rw [spanDigits_cons_not hc'] at h
      rw [Prod.mk.injEq] at h
      obtain ⟨hd, hr⟩ := h
      injection hr with hcc hrr
      subst hd
      subst hcc
      subst hrr
      simp only [List.cons_append, spanDigits_cons_not hc']

theorem dropWhile_append_cons {P : Char → Bool} {c : Char} (h : P c = false)
    (a bs : List Char) :
    (a ++ c :: bs).dropWhile P = a.dropWhile P ++ c :: bs := by
  induction a with
  | nil => simp [List.dropWhile_cons, h]
  | cons x xs ih =>
    by_cases hx : P x <;> simp [List.dropWhile_cons, hx, ih]

theorem trimRight_cons_keep {c : Char} (h : isTrimChar c = false) (p j : List Char) :
    trimRight (p ++ c :: j) = p ++ c :: trimRight j := by
  unfold trimRight
  rw [List.reverse_append, List.reverse_cons, List.append_assoc,
    List.singleton_append, dropWhile_append_cons h]
  simp

theorem trimList_head_keep {a : Char} (ha : isTrimChar a = false) (l : List Char) :
    trimList (a :: l) = trimRight (a :: l) := by
  unfold trimList
  rw [List.dropWhile_cons, ha]
  simp

end AbsScpi

namespace AbsScpi

theorem parseSignificand_ext_nil {p : List Char} {m : ℚ} {c : Char}
    (h : parseSignificand p = some (m, []))
    (hc : c.isDigit = false) (hdot : c ≠ '.') (j : List Char) :
    parseSignificand (p ++ c :: j) = some (m, c :: j) := by
  rcases hsp : spanDigits p with ⟨ip, r1⟩
  simp only [parseSignificand, hsp] at h
  match r1, h with
  | [], h =>
    have hip : ¬ ip = [] := by
      by_contra hip
      simp [hip] at h
    simp only [if_neg hip, Option.some.injEq, Prod.mk.injEq] at h
    obtain ⟨hm, -⟩ := h
    have hspan := spanDigits_append_nil hsp (c :: j)
    rw [spanDigits_cons_not hc] at hspan
    simp only [parseSignificand, hspan]
    simp only [List.append_nil]
    rw [if_neg (by simp [hdot]), if_neg hip]
    simp [hm]
  | c1 :: r2, h =>
    by_cases hc1 : c1 = '.'
    · subst hc1
      rcases hst : spanDigits r2 with ⟨fp, rf⟩
      simp only [if_pos rfl, if_true, hst] at h
      have hcond : ¬ (ip = [] ∧ fp = []) := by
        by_contra hcond
        simp [hcond.1, hcond.2] at h
      simp only [if_true, if_neg hcond, Option.some.injEq, Prod.mk.injEq] at h
      rcases h with ⟨hm, rfl⟩
      have hspan := spanDigits_append_cons hsp (c :: j)
      have hspan2 := spanDigits_append_nil hst (c :: j)
      rw [spanDigits_cons_not hc] at hspan2
      simp only [List.append_nil] at hspan2
      simp only [parseSignificand, hspan, if_pos rfl, if_true, hspan2, if_neg hcond]
      simp [hm]
    · exfalso
      simp only [if_neg hc1] at h
      by_cases hip : ip = []
      · simp [hip] at h
      · simp only [if_neg hip, Option.some.injEq, Prod.mk.injEq] at h
        exact List.cons_ne_nil c1 r2 h.2

theorem parseSignificand_ext_cons {p : List Char} {m : ℚ} {c0 : Char} {r : List Char}
    (h : parseSignificand p = some (m, c0 :: r)) (q : List Char) :
    parseSignificand (p ++ q) = some (m, c0 :: (r ++ q)) := by
  rcases hsp : spanDigits p with ⟨ip, r1⟩
  simp only [parseSignificand, hsp] at h
  match r1, h with
  | [], h =>
    exfalso
    by_cases hip : ip = []
    · simp [hip] at h
    · simp only [if_neg hip, Option.some.injEq, Prod.mk.injEq] at h
      exact List.cons_ne_nil c0 r h.2.symm
  | c1 :: r2, h =>
    by_cases hc1 : c1 = '.'
    · subst hc1
      rcases hst : spanDigits r2 with ⟨fp, rf⟩
      simp only [if_pos rfl, if_true, hst] at h
      have hcond : ¬ (ip = [] ∧ fp = []) := by
        by_contra hcond
        simp [hcond.1, hcond.2] at h
      simp only [if_true, if_neg hcond, Option.some.injEq, Prod.mk.injEq] at h
      rcases h with ⟨hm, rfl⟩
      have hspan := spanDigits_append_cons hsp q
      have hspan2 := spanDigits_append_cons hst q
      simp only [parseSignificand, hspan, if_pos rfl, if_true, hspan2, if_neg hcond]
      simp [hm]
    · by_cases hip : ip = []
      · exfalso
        simp [hc1, hip] at h
      · simp only [if_neg hc1, if_neg hip, Option.some.injEq, Prod.mk.injEq] at h
        obtain ⟨hm, hr⟩ := h
        injection hr with hcc hrr
        subst hcc
        subst hrr
        have hspan := spanDigits_append_cons hsp q
        simp only [parseSignificand, hspan, if_neg hc1, if_neg hip]
        simp [hm]

end AbsScpi

namespace AbsScpi

theorem expDigits_ext_nil {b : Bool} {r : List Char} {ex : Int} {c : Char}
    (h : expDigits b r = some (ex, []))
    (hc : c.isDigit = false) (j : List Char) :
    expDigits b (r ++ c :: j) = some (ex, c :: j) := by
  rcases hsp : spanDigits r with ⟨ds, r2⟩
  simp only [expDigits, hsp] at h
  by_cases hds : ds = []
  · rw [if_pos hds] at h
    cases h
  · rw [if_neg hds] at h
    simp only [Option.some.injEq, Prod.mk.injEq] at h
    obtain ⟨hex, hr2⟩ := h
    subst hr2
    have hspan := spanDigits_append_nil hsp (c :: j)
    rw [spanDigits_cons_not hc] at hspan
    simp only [List.append_nil] at hspan
    simp only [expDigits, hspan, if_neg hds]
    simp [hex]

theorem parseExpTail_ext_nil {p : List Char} {ex : Int} {c : Char}
    (h : parseExpTail p = some (ex, []))
    (hc : c.isDigit = false) (j : List Char) :
    parseExpTail (p ++ c :: j) = some (ex, c :: j) := by
  match p, h with
  | [], h => exact absurd h (by simp [parseExpTail])
  | a :: r, h =>
    simp only [parseExpTail] at h
    simp only [List.cons_append, parseExpTail]
    by_cases ha : a = '+'
    · rw [if_pos ha] at h
      rw [if_pos ha]
      exact expDigits_ext_nil h hc j
    · rw [if_neg ha] at h
      rw [if_neg ha]
      by_cases ha2 : a = '-'
      · rw [if_pos ha2] at h
        rw [if_pos ha2]
        exact expDigits_ext_nil h hc j
      · rw [if_neg ha2] at h
        rw [if_neg ha2]
        have := expDigits_ext_nil (b := false) (r := a :: r) h hc j
        simpa using this

theorem parseInfNan_not_finite {cs : List Char} {v : FF} {r : List Char}
    (h : parseInfNan cs = some (v, r)) : v = .posInf ∨ v = .nan := by
  match cs, h with
  | c1 :: c2 :: c3 :: rest, h =>
    simp only [parseInfNan] at h
    by_cases h1 : (lowEq c1 'i' && lowEq c2 'n' && lowEq c3 'f') = true
    · rw [if_pos h1] at h
      simp only [Option.some.injEq, Prod.mk.injEq] at h
      exact Or.inl h.1.symm
    · rw [if_neg h1] at h
      by_cases h2 : (lowEq c1 'n' && lowEq c2 'a' && lowEq c3 'n') = true
      · rw [if_pos h2] at h
        simp only [Option.some.injEq, Prod.mk.injEq] at h
        exact Or.inr h.1.symm
      · rw [if_neg h2] at h
        cases h

theorem ffUnsigned_ext {p : List Char} {q : ℚ} {c : Char}
    (h : ffUnsigned p = some (.finite q, []))
    (hc : c.isDigit = false) (hdot : c ≠ '.') (he : c ≠ 'e') (hE : c ≠ 'E')
    (j : List Char) :
    ffUnsigned (p ++ c :: j) = some (.finite q, c :: j) := by
  cases hps : parseSignificand p with
  | none =>
    exfalso
    simp only [ffUnsigned, hps] at h
    rcases parseInfNan_not_finite h with hv | hv <;> cases hv
  | some mr =>
    rcases mr with ⟨m, r⟩
    simp only [ffUnsigned, hps] at h
    cases r with
    | nil =>
      simp only [ffExponent, Option.some.injEq, Prod.mk.injEq, FF.finite.injEq] at h
      obtain ⟨hm, -⟩ := h
      have hext := parseSignificand_ext_nil hps hc hdot j
      simp only [ffUnsigned, hext, ffExponent]
      have hcE : ¬ (c = 'e' ∨ c = 'E') := by
        rintro (rfl | rfl)
        · exact he rfl
        · exact hE rfl
      rw [if_neg hcE]
      simp [hm]
    | cons c0 r2 =>
      simp only [ffExponent] at h
      by_cases hc0 : c0 = 'e' ∨ c0 = 'E'
      · rw [if_pos hc0] at h
        cases hpe : parseExpTail r2 with
        | none =>
          exfalso
          rw [hpe] at h
          simp only [Option.some.injEq, Prod.mk.injEq] at h
          exact List.cons_ne_nil c0 r2 h.2
        | some exr =>
          rcases exr with ⟨ex, r3⟩
          rw [hpe] at h
          simp only [Option.some.injEq, Prod.mk.injEq, FF.finite.injEq] at h
          obtain ⟨hm, hr3⟩ := h
          subst hr3
          have hext := parseSignificand_ext_cons hps (c :: j)
          have hexp := parseExpTail_ext_nil hpe hc j
          simp only [ffUnsigned, hext, ffExponent, if_pos hc0, hexp]
          simp [hm]
      · exfalso
        rw [if_neg hc0] at h
        simp only [Option.some.injEq, Prod.mk.injEq] at h
        exact List.cons_ne_nil c0 r2 h.2

theorem ffParse_nil : ffParse ([] : List Char) = none := by
  decide

theorem ffParse_ext {p : List Char} {q : ℚ} {c : Char}
    (h : ffParse p = some (.finite q, []))
    (hc : c.isDigit = false) (hdot : c ≠ '.') (he : c ≠ 'e') (hE : c ≠ 'E')
    (j : List Char) :
    ffParse (p ++ c :: j) = some (.finite q, c :: j) := by
  match p, h with
  | [], h => exact absurd h (by rw [ffParse_nil]; simp)
  | a :: r, h =>
    simp only [ffParse] at h
    simp only [List.cons_append, ffParse]
    by_cases ha : a = '-'
    · rw [if_pos ha] at h
      rw [if_pos ha]
      cases hfu : ffUnsigned r with
      | none => rw [hfu] at h; cases h
      | some vr =>
        rcases vr with ⟨v, rem⟩
        rw [hfu] at h
        simp only [Option.map_some', Option.some.injEq, Prod.mk.injEq] at h
        obtain ⟨hv, hrem⟩ := h
        subst hrem
        cases v with
        | finite q0 =>
          have hq : q = -q0 := by
            simp only [FF.neg] at hv
            cases hv
            simp
          have hext := ffUnsigned_ext hfu hc hdot he hE j
          rw [hext]
          simp [FF.neg, hq]
        | posInf => simp [FF.neg] at hv
        | negInf => simp [FF.neg] at hv
        | nan => simp [FF.neg] at hv
    · rw [if_neg ha] at h
      rw [if_neg ha]
      have := ffUnsigned_ext (p := a :: r) h hc hdot he hE j
      simpa using this

end AbsScpi

namespace AbsScpi

theorem ffParse_cons_none {c : Char} (hd : c.isDigit = false) (hm : c ≠ '-')
    (hdot : c ≠ '.') (hi : lowEq c 'i' = false) (hn : lowEq c 'n' = false)
    (u : List Char) :
    ffParse (c :: u) = none := by
  simp only [ffParse, if_neg hm]
  have hsig : parseSignificand (c :: u) = none := by
    simp only [parseSignificand, spanDigits_cons_not hd]
    rw [if_neg hdot]
    simp
  have hinf : parseInfNan (c :: u) = none := by
    match u with
    | [] => rfl
    | [b] => rfl
    | b :: c3 :: rest =>
      simp only [parseInfNan, hi, hn]
      simp
  simp only [ffUnsigned, hsig, hinf]

theorem ffParse_starts {p : List Char} {vr : FF × List Char}
    (h : ffParse p = some vr) :
    ∃ a t, p = a :: t ∧ floatStart a = true := by
  match p, h with
  | [], h => exact absurd h (by rw [ffParse_nil]; simp)
  | a :: t, h =>
    refine ⟨a, t, rfl, ?_⟩
    by_contra hns
    have hns' : floatStart a = false := by simpa using hns
    simp only [floatStart, Bool.or_eq_false_iff] at hns'
    obtain ⟨⟨⟨⟨hd, hm⟩, hdot⟩, hi⟩, hn⟩ := hns'
    rw [ffParse_cons_none hd (by simpa using hm) (by simpa using hdot) hi hn] at h
    cases h

theorem isTrimChar_floatStart {a : Char} (h : floatStart a = true) :
    isTrimChar a = false := by
  by_contra htr
  have htr' : isTrimChar a = true := by simpa using htr
  simp only [isTrimChar, Bool.or_eq_true, decide_eq_true_eq] at htr'
  rcases htr' with ((((rfl | rfl) | rfl) | rfl) | rfl) <;> simp [floatStart, lowEq] at h

theorem trimList_of_head {a : Char} (ha : isTrimChar a = false) (l : List Char) :
    trimList (a :: l) = trimRight (a :: l) := by
  unfold trimList
  rw [List.dropWhile_cons, ha]
  simp

theorem strViewToFloat_mk (l : List Char) :
    strViewToFloat (String.mk l) =
      (if trimList l = [] then none else (ffParse (trimList l)).map Prod.fst) := by
  rfl

/-- C4 counterexample: the token `1.5x` has trailing junk, yet the
float response parser succeeds and returns 1.5 — it parses a valid
prefix and ignores the rest, instead of failing with
`kInvalidResponse` as the claim requires. -/
theorem parseFloatResponse_trailing_junk_ok :
    parseFloatResponse "1.5x" = .ok (.finite (3 / 2)) ∧
    parseFloatResponse "1.5x" ≠ .error .kInvalidResponse := by
  have h1 : parseFloatResponse "1.5x" = .ok (.finite (sigVal ['1'] ['5'])) := rfl
  have h2 : sigVal ['1'] ['5'] = 3 / 2 := by
    have d1 : digitsToNat ['1'] = 1 := rfl
    have d5 : digitsToNat ['5'] = 5 := rfl
    rw [sigVal, d1, d5]
    norm_num
  constructor
  · rw [h1, h2]
  · rw [h1]
    simp

/-- C4 (amended): after trimming, a token whose first character cannot
begin a number (leading junk) fails with `kInvalidResponse`; but a
token consisting of a completely valid finite literal followed by
junk — any character that is not a digit, `.`, `e`, `E` or a trim
character — parses successfully to the literal's value: trailing junk
is accepted, only leading junk is rejected. -/
theorem parseFloatResponse_junk_amended :
    (∀ (c : Char) (s : List Char), isTrimChar c = false → floatStart c = false →
      parseFloatResponse (String.mk (c :: s)) = .error .kInvalidResponse) ∧
    (∀ (p j : List Char) (c : Char) (q : ℚ),
      ffParse p = some (.finite q, []) →
      c.isDigit = false → c ≠ '.' → c ≠ 'e' → c ≠ 'E' → isTrimChar c = false →
      parseFloatResponse (String.mk (p ++ c :: j)) = .ok (.finite q)) := by
  constructor
  · intro c s hctrim hcs
    simp only [floatStart, Bool.or_eq_false_iff] at hcs
    obtain ⟨⟨⟨⟨hd, hm⟩, hdot⟩, hi⟩, hn⟩ := hcs
    have ht : trimList (c :: s) = c :: trimRight s := by
      rw [trimList_of_head hctrim]
      have := trimRight_cons_keep hctrim [] s
      simpa using this
    have hffp := ffParse_cons_none hd (by simpa using hm) (by simpa using hdot)
      hi hn (trimRight s)
    unfold parseFloatResponse
    rw [strViewToFloat_mk, ht, if_neg (List.cons_ne_nil c (trimRight s)), hffp]
    rfl
  · intro p j c q h hd hdot he hE hctrim
    obtain ⟨a, t, rfl, hstart⟩ := ffParse_starts h
    have hatrim : isTrimChar a = false := isTrimChar_floatStart hstart
    have ht : trimList ((a :: t) ++ c :: j) = (a :: t) ++ c :: trimRight j := by
      have h1 : trimList ((a :: t) ++ c :: j) = trimRight ((a :: t) ++ c :: j) := by
        rw [List.cons_append]
        exact trimList_of_head hatrim (t ++ c :: j)
      rw [h1, trimRight_cons_keep hctrim (a :: t) j]
    have hext := ffParse_ext h hd hdot he hE (trimRight j)
    unfold parseFloatResponse
    rw [strViewToFloat_mk, ht, if_neg (by simp), hext]
    rfl

/-- Witness for C4 (amended): `x1` (leading junk) is rejected, `2z`
(trailing junk after the literal `2`) parses to 2. -/
theorem parseFloatResponse_junk_amended_w :
    parseFloatResponse (String.mk ['x', '1']) = .error .kInvalidResponse ∧
    parseFloatResponse (String.mk (['2'] ++ 'z' :: [])) = .ok (.finite 2) := by
  constructor
  · exact parseFloatResponse_junk_amended.1 'x' ['1'] (by decide) (by decide)
  · have h0 : ffParse ['2'] = some (.finite ((2 : Nat) : ℚ), []) := rfl
    have h0x : ffParse ['2'] = some (.finite (2 : ℚ), []) := by
      rw [h0]
      norm_num
    exact parseFloatResponse_junk_amended.2 ['2'] [] 'z' 2 h0x
      (by decide) (by decide) (by decide) (by decide) (by decide)

end AbsScpi
